import Mathlib

/-!
Verification development for `git_commit_reviewer.py`, a sequential script that
clones a user's repositories, reviews recent commits through a remote language
model, and aggregates the results into a text report.

The Python functions are shallowly embedded as executable Lean definitions over
`List Char` (Python `str`), `List` (Python `list`), `Option`/`Except` (fallible
steps) and `ℚ` (Python float arithmetic, exact here).  External effects
(subprocess invocations, HTTP calls) are passed in as explicit parameters so
that every control path of the Python code is represented by a total function.
All text handling is over the ASCII fragment that the script manipulates.
-/

namespace GitReviewer

/-- Python whitespace characters as tested by `str.strip` / regex `\s`
(ASCII fragment). -/
def isPyWS (c : Char) : Bool :=
  c = ' ' || c = '\t' || c = '\n' || c = '\r' || c = '\x0b' || c = '\x0c'

/-- Characters matched by the character class `[:\s]` used in the score
regular expressions. -/
def isScoreSep (c : Char) : Bool :=
  c = ':' || isPyWS c

/-- Boolean test that `pat` is a leading segment of `s`
(Python `s.startswith(pat)` at one position). -/
def hasPref : List Char → List Char → Bool
  | [], _ => true
  | _ :: _, [] => false
  | p :: ps, c :: cs => p = c && hasPref ps cs

/-- Remove a leading literal `pat` from `s`, or fail. -/
def dropPref : List Char → List Char → Option (List Char)
  | [], s => some s
  | _ :: _, [] => none
  | p :: ps, c :: cs => if p = c then dropPref ps cs else none

/-- Substring test (Python `pat in s`). -/
def containsSub (pat : List Char) : List Char → Bool
  | [] => hasPref pat []
  | c :: rest => hasPref pat (c :: rest) || containsSub pat rest

/-- Python `str.strip()`: remove leading and trailing whitespace. -/
def strip (l : List Char) : List Char :=
  ((l.dropWhile isPyWS).reverse.dropWhile isPyWS).reverse

/-- Python `str.split('\n')`. -/
def splitNl : List Char → List (List Char)
  | [] => [[]]
  | c :: rest =>
    if c = '\n' then [] :: splitNl rest
    else
      match splitNl rest with
      | [] => [[c]]
      | l :: ls => (c :: l) :: ls

/-- Python `'\n'.join(lines)`: the inverse image used to model the stdout of
`git log --pretty=format:...`, whose records are newline separated. -/
def joinNl : List (List Char) → List Char
  | [] => []
  | [l] => l
  | l :: ls => l ++ '\n' :: joinNl ls

/-- Value of a digit string (Python `int(s)` for strings of ASCII digits). -/
def digitsToNat (s : List Char) : Nat :=
  s.foldl (fun n c => n * 10 + (c.toNat - 48)) 0

/-- Python `str.isdigit()` (ASCII): non-empty and all digits. -/
def isdigitStr (s : List Char) : Bool :=
  !s.isEmpty && s.all Char.isDigit

/-- Lower-casing of a Python string (`str.lower()`, ASCII fragment). -/
def lowerL (l : List Char) : List Char :=
  l.map Char.toLower

/-!
Score extraction (`_extract_score`, `src/git_commit_reviewer.py:255-274`).

The four regular expressions
`score[:\s]*(\d+)/10`, `score[:\s]*(\d+)\s*/\s*10`, `(\d+)/10`,
`score[:\s]*(\d+)` are deterministic under maximal munch because every pair of
adjacent sub-patterns has disjoint character classes, so each is embedded as a
direct matching function; `re.findall(...)[0]` is the leftmost match, embedded
by `firstMatchPat`.
-/

/-- Attempt of `score[:\s]*(\d+)/10` anchored at the head of `s`; returns the
captured digits. -/
def matchPat1At (s : List Char) : Option (List Char) :=
  match dropPref ("score".toList) s with
  | none => none
  | some s1 =>
    let s2 := s1.dropWhile isScoreSep
    let ds := s2.takeWhile Char.isDigit
    if ds.isEmpty then none
    else if hasPref ("/10".toList) (s2.dropWhile Char.isDigit) then some ds
    else none

/-- Attempt of `score[:\s]*(\d+)\s*/\s*10` anchored at the head of `s`. -/
def matchPat2At (s : List Char) : Option (List Char) :=
  match dropPref ("score".toList) s with
  | none => none
  | some s1 =>
    let s2 := s1.dropWhile isScoreSep
    let ds := s2.takeWhile Char.isDigit
    if ds.isEmpty then none
    else
      match (s2.dropWhile Char.isDigit).dropWhile isPyWS with
      | '/' :: r3 =>
        if hasPref ("10".toList) (r3.dropWhile isPyWS) then some ds else none
      | _ => none

/-- Attempt of `(\d+)/10` anchored at the head of `s`. -/
def matchPat3At (s : List Char) : Option (List Char) :=
  let ds := s.takeWhile Char.isDigit
  if ds.isEmpty then none
  else if hasPref ("/10".toList) (s.dropWhile Char.isDigit) then some ds
  else none

/-- Attempt of `score[:\s]*(\d+)` anchored at the head of `s`. -/
def matchPat4At (s : List Char) : Option (List Char) :=
  match dropPref ("score".toList) s with
  | none => none
  | some s1 =>
    let ds := (s1.dropWhile isScoreSep).takeWhile Char.isDigit
    if ds.isEmpty then none else some ds

/-- Leftmost match of an anchored pattern: `re.findall(pat, s)[0]`. -/
def firstMatchPat (patAt : List Char → Option (List Char)) : List Char → Option (List Char)
  | [] => patAt []
  | c :: rest =>
    match patAt (c :: rest) with
    | some ds => some ds
    | none => firstMatchPat patAt rest

/-- One iteration of the pattern loop of `_extract_score`: take the first match
of the pattern, keep it only if `score.isdigit() and 1 <= int(score) <= 10`. -/
def scoreFromPattern (patAt : List Char → Option (List Char)) (low : List Char) :
    Option (List Char) :=
  match firstMatchPat patAt low with
  | none => none
  | some ds =>
    if isdigitStr ds = true ∧ 1 ≤ digitsToNat ds ∧ digitsToNat ds ≤ 10 then some ds
    else none

/-- Embedding of `_extract_score` (`src/git_commit_reviewer.py:255-274`): try
the four patterns in order on the lower-cased feedback; each pattern
contributes only its first occurrence, and an occurrence outside `[1,10]`
falls through to the next pattern; `"N/A"` when nothing sticks. -/
def _extract_score (feedback : List Char) : List Char :=
  match scoreFromPattern matchPat1At (lowerL feedback) with
  | some s => s
  | none =>
  match scoreFromPattern matchPat2At (lowerL feedback) with
  | some s => s
  | none =>
  match scoreFromPattern matchPat3At (lowerL feedback) with
  | some s => s
  | none =>
  match scoreFromPattern matchPat4At (lowerL feedback) with
  | some s => s
  | none => "N/A".toList

/-!
Suggestion extraction (`_extract_suggestions`, `src/git_commit_reviewer.py:276-290`).
-/

/-- A line that switches the scanner into collecting mode: it contains the word
`suggestion` or `improve`, case-insensitively. -/
def isTriggerLine (line : List Char) : Bool :=
  containsSub ("suggestion".toList) (lowerL line) ||
  containsSub ("improve".toList) (lowerL line)

/-- A stripped line starting with one of the bullet markers `-`, `*`, `•`. -/
def isBulletLine (line : List Char) : Bool :=
  match line with
  | [] => false
  | c :: _ => c = '-' || c = '*' || c = '•'

/-- One iteration of the `for line in lines` loop of `_extract_suggestions`:
the state is `(in_suggestions, suggestions)`.  A trigger line (re)enters
collecting mode; while collecting, a bullet line is captured with the marker
stripped; while collecting, a non-empty non-bullet line resets the mode; any
other line — in particular a blank one — leaves the state unchanged. -/
def suggestStep (st : Bool × List (List Char)) (rawLine : List Char) :
    Bool × List (List Char) :=
  let line := strip rawLine
  if isTriggerLine line then (true, st.2)
  else if st.1 && isBulletLine line then (st.1, st.2 ++ [strip line.tail])
  else if st.1 && !line.isEmpty then (false, st.2)
  else st

/-- Embedding of `_extract_suggestions` (`src/git_commit_reviewer.py:276-290`):
run the line scanner over `feedback.split('\n')` and keep the first five
captured suggestions. -/
def _extract_suggestions (feedback : List Char) : List (List Char) :=
  (((splitNl feedback).foldl suggestStep (false, [])).2).take 5

/-!
Data model (spec §3): `Commit`, `Analysis`, `Review` are the dictionaries the
script builds in `get_recent_commits`, `analyze_commit_with_ai` and
`review_repository`.
-/

/-- A parsed commit record (`{'hash', 'author', 'date', 'message'}`). -/
structure Commit where
  hash : List Char
  author : List Char
  date : List Char
  message : List Char
deriving DecidableEq

/-- The structured result of one analysis
(`{'score', 'feedback', 'suggestions'}`). -/
structure Analysis where
  score : List Char
  feedback : List Char
  suggestions : List (List Char)
deriving DecidableEq

/-- One per-commit review record as accumulated by `review_repository`
(`{'repository', 'commit', 'analysis'}`). -/
structure Review where
  repository : List Char
  commit : Commit
  analysis : Analysis
deriving DecidableEq

/-!
The review analyzer (`analyze_commit_with_ai`, `src/git_commit_reviewer.py:154-253`).

The single HTTP POST is abstracted by an `ApiOutcome` argument describing what
the network did: `raised` covers `requests.post` failing (connection error,
timeout) and, through the `Except.error` form of a response, any exception
while decoding the response JSON shape; both land in the same
`except Exception` handler.  The prompt construction (lines 166-191) is not
modelled: no observable behaviour of the function depends on the prompt text.
The second component of the result counts the HTTP calls performed, which the
source performs exactly when it reaches `requests.post`.
-/

/-- Outcome of the surrounding `try` block: either `requests.post` returned a
response with a status code, a body, and an extraction of
`candidates[0].content.parts[0].text` that itself may raise, or an exception
was raised before a response existed. -/
inductive ApiOutcome where
  | response (status : Nat) (body : List Char) (extracted : Except (List Char) (List Char))
  | raised (msg : List Char)

/-- Python truthiness of `self.api_key` as used by `if not self.api_key`:
`None` and the empty string both count as missing. -/
def apiKeyMissing : Option (List Char) → Bool
  | none => true
  | some k => k.isEmpty

/-- Embedding of `analyze_commit_with_ai` (`src/git_commit_reviewer.py:154-253`),
parameterised by the HTTP outcome; returns the analysis together with the
number of network calls made. -/
def analyze_commit_with_ai (api_key : Option (List Char)) (_commit_info : Commit)
    (_diff_content : List Char) (outcome : ApiOutcome) : Analysis × Nat :=
  if apiKeyMissing api_key then
    ({ score := "N/A".toList,
       feedback := "AI analysis unavailable - no API key configured".toList,
       suggestions := [] }, 0)
  else
    match outcome with
    | .response status body extracted =>
      if status = 200 then
        match extracted with
        | .ok ai_feedback =>
          ({ score := _extract_score ai_feedback,
             feedback := ai_feedback,
             suggestions := _extract_suggestions ai_feedback }, 1)
        | .error m =>
          ({ score := "Error".toList,
             feedback := "Analysis failed: ".toList ++ m,
             suggestions := [] }, 1)
      else
        ({ score := "Error".toList,
           feedback := "API Error: ".toList ++ Nat.toDigits 10 status ++ " - ".toList ++ body,
           suggestions := [] }, 1)
    | .raised m =>
      ({ score := "Error".toList,
         feedback := "Analysis failed: ".toList ++ m,
         suggestions := [] }, 1)

/-!
Repository cloning (`clone_repository_with_auth`, `src/git_commit_reviewer.py:137-152`).
-/

/-- Fuel-driven worker for `replaceAll`; the fuel is the length of the scanned
list, which bounds the number of steps. -/
def replaceAllFuel : Nat → List Char → List Char → List Char → List Char
  | 0, l, _, _ => l
  | _ + 1, [], _, _ => []
  | fuel + 1, c :: rest, pat, rep =>
    if !pat.isEmpty && hasPref pat (c :: rest) then
      rep ++ replaceAllFuel fuel (List.drop (pat.length - 1) rest) pat rep
    else
      c :: replaceAllFuel fuel rest pat rep

/-- Python `l.replace(pat, rep)`: replace every non-overlapping occurrence of
`pat`, scanning left to right.  (For the empty pattern Python interleaves
`rep` everywhere; the script only ever replaces non-empty patterns, and this
embedding leaves the string unchanged in that unused case.) -/
def replaceAll (l pat rep : List Char) : List Char :=
  replaceAllFuel l.length l pat rep

/-- The credential-injection step of `clone_repository_with_auth`: when the URL
targets `https://github.com/`, rewrite that prefix to
`https://<token>@github.com/` (Python `str.replace`, all occurrences). -/
def injectToken (clone_url token : List Char) : List Char :=
  if hasPref ("https://github.com/".toList) clone_url then
    replaceAll clone_url ("https://github.com/".toList)
      ("https://".toList ++ token ++ "@github.com/".toList)
  else clone_url

/-- Python truthiness of the `token` parameter (`if token ...`). -/
def tokenTruthy : Option (List Char) → Bool
  | none => false
  | some t => !t.isEmpty

/-- Embedding of `clone_repository_with_auth`
(`src/git_commit_reviewer.py:137-152`).  `gitCloneOk` abstracts the
`git clone` subprocess (applied to the URL actually passed to it) and `errStr`
the rendering of the raised `CalledProcessError`.  Returns the emitted log
lines in order, paired with the boolean result:  a debug line showing the
command with the token replaced by `***`, and — on failure — an error line
interpolating `clone_url`, which at that point is the credential-bearing URL. -/
def clone_repository_with_auth (clone_url repo_path : List Char)
    (token : Option (List Char)) (gitCloneOk : List Char → Bool)
    (errStr : List Char) : List (List Char) × Bool :=
  let url :=
    match token with
    | some t => if !t.isEmpty then injectToken clone_url t else clone_url
    | none => clone_url
  let urlLog :=
    match token with
    | some t => if !t.isEmpty then replaceAll url t ("***".toList) else url
    | none => url
  let dbg := "Running: git clone --depth 1 ".toList ++ urlLog ++ " ".toList ++ repo_path
  if gitCloneOk url then ([dbg], true)
  else ([dbg, "Failed to clone ".toList ++ url ++ ": ".toList ++ errStr], false)

/-!
Commit listing (`get_recent_commits`, `src/git_commit_reviewer.py:81-117`).
-/

/-- Split off the segment before the first `'|'` (none when there is no pipe). -/
def breakAtPipe : List Char → Option (List Char × List Char)
  | [] => none
  | c :: rest =>
    if c = '|' then some ([], rest)
    else
      match breakAtPipe rest with
      | none => none
      | some (b, a) => some (c :: b, a)

/-- Python `line.split('|', maxsplit)`. -/
def splitPipeMax : Nat → List Char → List (List Char)
  | 0, l => [l]
  | k + 1, l =>
    match breakAtPipe l with
    | none => [l]
    | some (b, a) => b :: splitPipeMax k a

/-- The per-line body of the parsing loop of `get_recent_commits`: skip empty
lines, split on `'|'` with `maxsplit=3`, keep the line only when that yields
exactly four fields. -/
def parseCommitLine (line : List Char) : Option Commit :=
  if line.isEmpty then none
  else
    match splitPipeMax 3 line with
    | [h, a, d, m] => some ⟨h, a, d, m⟩
    | _ => none

/-- The full parsing loop of `get_recent_commits` over the stdout lines. -/
def parseCommits (lines : List (List Char)) : List Commit :=
  lines.filterMap parseCommitLine

/-- Embedding of `get_recent_commits` (`src/git_commit_reviewer.py:81-117`):
on subprocess failure return `[]` (the error is logged and not re-raised);
otherwise strip the stdout, split it into lines and parse them. -/
def get_recent_commits (gitResult : Except (List Char) (List Char)) : List Commit :=
  match gitResult with
  | .error _ => []
  | .ok stdout => parseCommits (splitNl (strip stdout))

/-- One record of `git log --pretty=format:%H|%an|%ad|%s`. -/
def formatCommitLine (c : Commit) : List Char :=
  c.hash ++ '|' :: (c.author ++ '|' :: (c.date ++ '|' :: c.message))

/-- Model of the external `git log --no-merges -<count> --pretty=format:...`
invocation on a repository holding the given commits, newest first: git emits
one record per commit, at most `count` of them, newline separated. -/
def runGitLog (repo : List Commit) (count : Nat) : Except (List Char) (List Char) :=
  .ok (joinNl ((repo.take count).map formatCommitLine))

/-- Well-formedness of a commit as actually produced by git: no field embeds a
record separator (`'\n'`), the hash/author/date fields are pipe-free, and the
record neither starts nor ends in whitespace (the hash is a non-empty hex
string; `%s` is the stripped subject line). -/
def goodCommit (c : Commit) : Prop :=
  ('\n' ∉ c.hash) ∧ ('\n' ∉ c.author) ∧ ('\n' ∉ c.date) ∧ ('\n' ∉ c.message) ∧
  ('|' ∉ c.hash) ∧ ('|' ∉ c.author) ∧ ('|' ∉ c.date) ∧
  c.hash ≠ [] ∧
  Option.all (fun ch => !isPyWS ch) c.hash.head? = true ∧
  Option.all (fun ch => !isPyWS ch) c.message.getLast? = true

instance (c : Commit) : Decidable (goodCommit c) := by
  unfold goodCommit
  infer_instance

/-!
Report generation (`generate_report`, `src/git_commit_reviewer.py:292-348`)
and the summary statistics it shares with `main`
(`src/git_commit_reviewer.py:888-891`).
-/

/-- The score strings of the digit-scored reviews:
`[r['analysis']['score'] for r in reviews if r['analysis']['score'].isdigit()]`. -/
def digitScores (reviews : List Review) : List (List Char) :=
  (reviews.filter fun r => isdigitStr r.analysis.score).map fun r => r.analysis.score

/-- The average quality score as computed in `generate_report` (lines 303-306)
and in `main` (lines 888-890): `sum(int(s) for s in scores) / len(scores)`,
guarded by `if scores:` — `none` when no review has a digit score, so the
division is only ever performed with a positive denominator. -/
def reportAvgScore (reviews : List Review) : Option ℚ :=
  if (digitScores reviews).isEmpty then none
  else
    some (((digitScores reviews).map fun s => ((digitsToNat s : ℚ))).sum /
      ((digitScores reviews).length : ℚ))

/-- Rendering of a non-negative average with one decimal digit
(Python `f"{avg:.1f}"`, modelled exactly on the rational value with the same
round-half-to-even rule). -/
def formatAvg1 (q : ℚ) : List Char :=
  let fl : ℤ := ⌊q * 10⌋
  let t : ℤ :=
    if q * 10 - fl > 1/2 then fl + 1
    else if q * 10 - fl < 1/2 then fl
    else if fl % 2 = 0 then fl else fl + 1
  Nat.toDigits 10 (t.toNat / 10) ++ '.' :: Nat.toDigits 10 (t.toNat % 10)

/-- Python `', '.join(scores)`. -/
def joinCommaSp : List (List Char) → List Char
  | [] => []
  | [s] => s
  | s :: rest => s ++ ", ".toList ++ joinCommaSp rest

/-- The conditional summary lines of `generate_report` (lines 303-308): under
`if reviews:` and `if scores:`, an average line and a distribution line;
otherwise nothing is appended. -/
def scoreSummary (reviews : List Review) : List Char :=
  if reviews.isEmpty then []
  else
    match reportAvgScore reviews with
    | none => []
    | some q =>
      "Average quality score: ".toList ++ formatAvg1 q ++ "/10\n".toList ++
      "Scores distribution: ".toList ++ joinCommaSp (digitScores reviews) ++ "\n".toList

/-- Python `os.path.basename` for POSIX paths: the part after the last `'/'`. -/
def basename (p : List Char) : List Char :=
  (p.reverse.takeWhile fun c => c != '/').reverse

/-- One detailed block of the text report, exactly as concatenated by the
`for review in reviews` loop (lines 312-331): header line with the short hash
and repository basename, author/date/message lines, score, feedback, and one
bulleted line per suggestion, closed by a rule. -/
def renderBlock (r : Review) : List Char :=
  "\n### Commit: ".toList ++ r.commit.hash.take 8 ++ " (".toList ++
  basename r.repository ++ ")\n**Author:** ".toList ++ r.commit.author ++
  "  \n**Date:** ".toList ++ r.commit.date ++
  "  \n**Message:** ".toList ++ r.commit.message ++
  "  \n**Quality Score:** ".toList ++ r.analysis.score ++
  "/10\n\n**Feedback:**\n".toList ++ r.analysis.feedback ++
  "\n\n**Suggestions:**\n".toList ++
  (r.analysis.suggestions.map fun s => "- ".toList ++ s ++ "\n".toList).flatten ++
  "\n---\n".toList

/-- Run-level configuration interpolated into the report header. -/
structure ReportConfig where
  now : List Char
  logLevel : List Char
  maxDiffSize : Nat

/-- The fixed part of the report preceding the detailed blocks (lines 295-310):
title, timestamp, configuration, total count, optional summary lines, and the
`## Detailed Reviews` heading. -/
def reportHeader (cfg : ReportConfig) (reviews : List Review) : List Char :=
  "# Git Commit Review Report\nGenerated on: ".toList ++ cfg.now ++
  "\nLog Level: ".toList ++ cfg.logLevel ++
  "\nMax Diff Size: ".toList ++ Nat.toDigits 10 cfg.maxDiffSize ++
  " characters\n\n## Summary\nTotal commits reviewed: ".toList ++
  Nat.toDigits 10 reviews.length ++ "\n".toList ++
  scoreSummary reviews ++
  "\n## Detailed Reviews\n".toList

/-- Embedding of the text of `generate_report`
(`src/git_commit_reviewer.py:292-331`): the header followed by the
`report += ...` loop over the reviews.  (Persisting the report to a file,
lines 333-347, is an external effect outside the claims.) -/
def generate_report (cfg : ReportConfig) (reviews : List Review) : List Char :=
  reviews.foldl (fun acc r => acc ++ renderBlock r) (reportHeader cfg reviews)

/-!
The repository loop of `main` (`src/git_commit_reviewer.py:861-872`):
clone each listed repository, `continue` on clone failure, otherwise review it
and extend the accumulated list.
-/

/-- Embedding of the `for i, clone_url in enumerate(repos, 1)` loop of `main`,
with the clone result and the per-repository reviews abstracted as functions
of the clone URL. -/
def processRepos (repos : List (List Char)) (cloneOk : List Char → Bool)
    (reviewsOf : List Char → List Review) : List Review :=
  repos.foldl (fun acc url => if cloneOk url then acc ++ reviewsOf url else acc) []

/-- Whether an `ApiOutcome` is one of the failure modes of the analyzer: a
non-200 status, a response whose JSON shape could not be decoded, or an
exception raised by the request itself. -/
def isFailureOutcome : ApiOutcome → Bool
  | .raised _ => true
  | .response status _ ext =>
    (status != 200) || (match ext with | .error _ => true | .ok _ => false)

/-!
Claim C1 — score extraction.
-/

/-- Helper: any score accepted by the validity test of the pattern loop is a
digit string whose value lies in `[1, 10]`. -/
theorem scoreFromPattern_some {p : List Char → Option (List Char)} {low s : List Char}
    (h : scoreFromPattern p low = some s) :
    isdigitStr s = true ∧ 1 ≤ digitsToNat s ∧ digitsToNat s ≤ 10 := by
  unfold scoreFromPattern at h
  split at h
  · exact Option.noConfusion h
  · split at h
    · rename_i hc
      cases h
      exact hc
    · exact Option.noConfusion h

/-- Claim C1, counterexample.  The claim states that score extraction returns
the first match across all patterns whose digits lie in `[1,10]` — in
particular `"7"` for any feedback containing `"Score: 7/10"`.  The code
instead inspects only the first occurrence of each pattern
(`re.findall(...)[0]`): on `"Score: 0/10 Score: 7/10"` every pattern's first
occurrence captures the out-of-range `0`, so the extraction falls through all
four patterns and returns `"N/A"`, not `"7"`. -/
theorem c1_counterexample :
    containsSub ("Score: 7/10".toList) ("Score: 0/10 Score: 7/10".toList) = true ∧
    _extract_score ("Score: 0/10 Score: 7/10".toList) = "N/A".toList ∧
    "N/A".toList ≠ "7".toList :=
  ⟨by decide, by decide, by decide⟩

/-- Claim C1 (amended): score extraction lower-cases the text and tries the
four patterns `score: N/10`, `score: N / 10`, `N/10`, `score: N` in that
priority order, but examines only the first occurrence in the text of each
pattern; if that occurrence's digits form an integer in `[1,10]` it is
returned, and otherwise the next pattern is tried; `"N/A"` when no pattern's
first occurrence is valid.  The result is always either a digit string with
value in `[1,10]` or `"N/A"`; feedback `"Score: 7/10"` yields `"7"` and
`"the score is 11"` yields `"N/A"`, while in `"score: 11/10 but really 7/10"`
the out-of-range first occurrence masks the later valid one. -/
theorem c1_score_extraction :
    (∀ fb : List Char,
        _extract_score fb = "N/A".toList ∨
        (isdigitStr (_extract_score fb) = true ∧
          1 ≤ digitsToNat (_extract_score fb) ∧ digitsToNat (_extract_score fb) ≤ 10)) ∧
    _extract_score ("Score: 7/10".toList) = "7".toList ∧
    _extract_score ("the score is 11".toList) = "N/A".toList ∧
    _extract_score ("score: 11/10 but really 7/10".toList) = "N/A".toList := by
  refine ⟨?_, by decide, by decide, by decide⟩
  intro fb
  unfold _extract_score
  split
  next s h1 => exact Or.inr (scoreFromPattern_some h1)
  next h1 =>
    split
    next s h2 => exact Or.inr (scoreFromPattern_some h2)
    next h2 =>
      split
      next s h3 => exact Or.inr (scoreFromPattern_some h3)
      next h3 =>
        split
        next s h4 => exact Or.inr (scoreFromPattern_some h4)
        next h4 => exact Or.inl rfl

/-!
Claim C2 — suggestion extraction.
-/

/-- Claim C2, counterexample.  The claim states that a single blank line
terminates suggestion capture until another trigger line is seen, so
`"Suggestions:\n- a\n\n- b"` would yield only `["a"]`.  In the code the
reset branch requires a non-empty line (`elif in_suggestions and line and
...`), so a blank line leaves collecting mode on and `"b"` is captured too. -/
theorem c2_counterexample :
    _extract_suggestions ("Suggestions:\n- a\n\n- b".toList) =
      ["a".toList, "b".toList] ∧
    _extract_suggestions ("Suggestions:\n- a\n\n- b".toList) ≠ ["a".toList] :=
  ⟨by decide, by decide⟩

/-- Claim C2 (amended): suggestion extraction scans stripped lines, enters
collecting mode on a line containing `suggestion` or `improve`
(case-insensitive), captures each collecting-mode bullet line with the marker
stripped and trimmed, and a *non-empty* non-bulleted line terminates capture
until another trigger line is seen, while blank lines leave the state
unchanged; the result is capped at the first 5 captured suggestions, and on
`"Suggestions:\n- do X\n- do Y\n\nMore prose"` it is exactly
`["do X", "do Y"]`. -/
theorem c2_suggestion_extraction :
    (∀ fb : List Char, (_extract_suggestions fb).length ≤ 5) ∧
    _extract_suggestions ("Suggestions:\n- do X\n- do Y\n\nMore prose".toList) =
      ["do X".toList, "do Y".toList] ∧
    (∀ (st : Bool × List (List Char)) (raw : List Char),
        strip raw = [] → suggestStep st raw = st) ∧
    (∀ (acc : List (List Char)) (line : List Char),
        isTriggerLine (strip line) = false → isBulletLine (strip line) = false →
        strip line ≠ [] → suggestStep (true, acc) line = (false, acc)) ∧
    (∀ (st : Bool × List (List Char)) (line : List Char),
        isTriggerLine (strip line) = true → suggestStep st line = (true, st.2)) := by
  refine ⟨?_, by decide, ?_, ?_, ?_⟩
  · intro fb
    unfold _extract_suggestions
    simp [List.length_take]
  · intro st raw h
    simp [suggestStep, h, show isTriggerLine [] = false from rfl,
      show isBulletLine [] = false from rfl]
  · intro acc line h1 h2 h3
    cases hl : strip line with
    | nil => exact absurd hl h3
    | cons a t =>
      rw [hl] at h1 h2
      simp [suggestStep, hl, h1, h2]
  · intro st line h
    simp [suggestStep, h]

/-- Witness for `c2_suggestion_extraction` at concrete inputs: a blank line
keeps state `(collecting, captured)` unchanged, a prose line resets
collecting, a trigger line enters collecting. -/
theorem c2_witness :
    suggestStep (true, ([] : List (List Char))) ("  ".toList) = (true, []) ∧
    suggestStep (true, ([] : List (List Char))) ("prose".toList) = (false, []) ∧
    suggestStep (false, ([] : List (List Char))) ("Suggestions:".toList) = (true, []) :=
  ⟨c2_suggestion_extraction.2.2.1 (true, []) ("  ".toList) (by decide),
   c2_suggestion_extraction.2.2.2.1 [] ("prose".toList) (by decide) (by decide) (by decide),
   c2_suggestion_extraction.2.2.2.2 (false, []) ("Suggestions:".toList) (by decide)⟩

/-!
Claim C3 — token masking in clone logs.
-/

/-- Claim C3 fails on the code: cloning `https://github.com/u/r.git` with
token `SECRET` and a failing `git clone` emits two log lines; the debug line
is masked (`***`) as the claim says, but the error line of the `except`
branch interpolates `clone_url`, which was reassigned to the
credential-bearing URL, so the token appears verbatim in the log.  Evaluating
the embedding at that input: the per-line token test yields
`[false, true]`. -/
theorem c3_token_leak :
    (clone_repository_with_auth ("https://github.com/u/r.git".toList) ("/tmp/r".toList)
        (some ("SECRET".toList)) (fun _ => false) ("err".toList)).2 = false ∧
    ((clone_repository_with_auth ("https://github.com/u/r.git".toList) ("/tmp/r".toList)
        (some ("SECRET".toList)) (fun _ => false) ("err".toList)).1.map
      (containsSub ("SECRET".toList))) = [false, true] :=
  ⟨by decide, by decide⟩

/-!
Claim C4 — analyzer failure handling.
-/

/-- Claim C4: with a configured key, a non-200 response yields the
`API Error: <status> - <body>` analysis, an exception (from the request or
from decoding the response shape) yields the `Analysis failed: <message>`
analysis, and every failure mode — including the missing-key path — produces
a structured `Analysis` whose score is the sentinel `"Error"` or `"N/A"`. -/
theorem c4_failure_analysis :
    (∀ (key : Option (List Char)) (c : Commit) (d : List Char) (status : Nat)
        (body : List Char) (ext : Except (List Char) (List Char)),
        apiKeyMissing key = false → status ≠ 200 →
        analyze_commit_with_ai key c d (ApiOutcome.response status body ext) =
          ({ score := "Error".toList,
             feedback := "API Error: ".toList ++ Nat.toDigits 10 status ++
               " - ".toList ++ body,
             suggestions := [] }, 1)) ∧
    (∀ (key : Option (List Char)) (c : Commit) (d msg : List Char),
        apiKeyMissing key = false →
        analyze_commit_with_ai key c d (ApiOutcome.raised msg) =
          ({ score := "Error".toList,
             feedback := "Analysis failed: ".toList ++ msg,
             suggestions := [] }, 1)) ∧
    (∀ (key : Option (List Char)) (c : Commit) (d body msg : List Char),
        apiKeyMissing key = false →
        analyze_commit_with_ai key c d (ApiOutcome.response 200 body (Except.error msg)) =
          ({ score := "Error".toList,
             feedback := "Analysis failed: ".toList ++ msg,
             suggestions := [] }, 1)) ∧
    (∀ (key : Option (List Char)) (c : Commit) (d : List Char) (outcome : ApiOutcome),
        isFailureOutcome outcome = true ∨ apiKeyMissing key = true →
        (analyze_commit_with_ai key c d outcome).1.score = "Error".toList ∨
        (analyze_commit_with_ai key c d outcome).1.score = "N/A".toList) := by
  refine ⟨?_, ?_, ?_, ?_⟩
  · intro key c d status body ext hk hs
    simp [analyze_commit_with_ai, hk, hs]
  · intro key c d msg hk
    simp [analyze_commit_with_ai, hk]
  · intro key c d body msg hk
    simp [analyze_commit_with_ai, hk]
  · intro key c d outcome h
    cases hk : apiKeyMissing key with
    | true => exact Or.inr (by simp [analyze_commit_with_ai, hk])
    | false =>
      cases outcome with
      | raised m => exact Or.inl (by simp [analyze_commit_with_ai, hk])
      | response status body ext =>
        rcases h with h | h
        · by_cases hs : status = 200
          · subst hs
            cases ext with
            | ok fb => simp [isFailureOutcome] at h
            | error m => exact Or.inl (by simp [analyze_commit_with_ai, hk])
          · exact Or.inl (by simp [analyze_commit_with_ai, hk, hs])
        · rw [hk] at h
          exact Bool.noConfusion h

/-- Witness for `c4_failure_analysis` at a concrete input: a 404 response
with a configured key. -/
theorem c4_witness :
    analyze_commit_with_ai (some ("k".toList)) ⟨[], [], [], []⟩ []
        (ApiOutcome.response 404 ("nf".toList) (Except.ok [])) =
      ({ score := "Error".toList,
         feedback := "API Error: ".toList ++ Nat.toDigits 10 404 ++
           " - ".toList ++ "nf".toList,
         suggestions := [] }, 1) :=
  c4_failure_analysis.1 (some ("k".toList)) ⟨[], [], [], []⟩ [] 404 ("nf".toList)
    (Except.ok []) (by decide) (by decide)

/-!
Claim C5 — no key, no network call.
-/

/-- Claim C5: when no API credential is configured (`None` or the empty
string), the analyzer immediately returns the `N/A` analysis with the
`AI analysis unavailable` feedback and performs zero network calls, for every
commit, diff, and potential network behaviour. -/
theorem c5_no_key_no_network :
    ∀ (key : Option (List Char)) (c : Commit) (d : List Char) (outcome : ApiOutcome),
      apiKeyMissing key = true →
      analyze_commit_with_ai key c d outcome =
        ({ score := "N/A".toList,
           feedback := "AI analysis unavailable - no API key configured".toList,
           suggestions := [] }, 0) := by
  intro key c d outcome h
  simp [analyze_commit_with_ai, h]

/-- Witness for `c5_no_key_no_network` at a concrete input. -/
theorem c5_witness :
    analyze_commit_with_ai none ⟨[], [], [], []⟩ [] (ApiOutcome.raised []) =
      ({ score := "N/A".toList,
         feedback := "AI analysis unavailable - no API key configured".toList,
         suggestions := [] }, 0) :=
  c5_no_key_no_network none ⟨[], [], [], []⟩ [] (ApiOutcome.raised []) (by decide)

/-!
Claim C6 — commit-listing parsing.  The lemmas below relate `splitNl`,
`joinNl` and `strip` so that the full pipeline
`parseCommits (splitNl (strip stdout))` can be evaluated on the stdout that
`git log` produces for a well-formed repository.
-/

/-- A newline-free string is a single line. -/
theorem splitNl_of_not_mem : ∀ {l : List Char}, '\n' ∉ l → splitNl l = [l] := by
  intro l
  induction l with
  | nil => intro _; rfl
  | cons c t ih =>
    intro h
    have hc : ¬(c = '\n') := fun he => h (by simp [he])
    have ht : '\n' ∉ t := fun hm => h (by simp [hm])
    simp [splitNl, hc, ih ht]

/-- Splitting after a newline-free first line peels it off. -/
theorem splitNl_append : ∀ {l : List Char} (r : List Char), '\n' ∉ l →
    splitNl (l ++ '\n' :: r) = l :: splitNl r := by
  intro l
  induction l with
  | nil => intro r _; simp [splitNl]
  | cons c t ih =>
    intro r h
    have hc : ¬(c = '\n') := fun he => h (by simp [he])
    have ht : '\n' ∉ t := fun hm => h (by simp [hm])
    simp [splitNl, hc, ih r ht]

/-- Splitting a newline join of newline-free lines recovers the lines. -/
theorem splitNl_joinNl : ∀ (lines : List (List Char)), lines ≠ [] →
    (∀ l ∈ lines, '\n' ∉ l) → splitNl (joinNl lines) = lines := by
  intro lines
  induction lines with
  | nil => intro h _; exact absurd rfl h
  | cons l ls ih =>
    intro _ hnl
    cases ls with
    | nil => exact splitNl_of_not_mem (hnl l (by simp))
    | cons m ms =>
      show splitNl (l ++ '\n' :: joinNl (m :: ms)) = l :: (m :: ms)
      rw [splitNl_append _ (hnl l (by simp))]
      rw [ih (by simp) (fun x hx => hnl x (by simp [hx]))]

/-- Dropping leading whitespace is the identity when the head is not
whitespace. -/
theorem dropWhile_eq_self_of_head {l : List Char}
    (h : ∀ c, l.head? = some c → isPyWS c = false) :
    l.dropWhile isPyWS = l := by
  cases l with
  | nil => rfl
  | cons a t =>
    have ha := h a rfl
    simp [List.dropWhile_cons, ha]

/-- Stripping is the identity on a string with non-whitespace ends. -/
theorem strip_eq_self {l : List Char}
    (h1 : ∀ c, l.head? = some c → isPyWS c = false)
    (h2 : ∀ c, l.getLast? = some c → isPyWS c = false) :
    strip l = l := by
  unfold strip
  rw [dropWhile_eq_self_of_head h1]
  rw [dropWhile_eq_self_of_head (fun c hc => h2 c (by rwa [List.head?_reverse] at hc))]
  exact List.reverse_reverse l

/-- The last element of an append with a non-empty right part. -/
theorem getLast?_append_right (l m : List Char) (h : m ≠ []) :
    (l ++ m).getLast? = m.getLast? := by
  rw [← List.head?_reverse, ← List.head?_reverse, List.reverse_append]
  cases hm : m.reverse with
  | nil => exact absurd (by simpa using hm) h
  | cons c cs => simp

/-- The first character of a newline join is that of its non-empty first
line. -/
theorem joinNl_head? (l : List Char) (ls : List (List Char)) (h : l ≠ []) :
    (joinNl (l :: ls)).head? = l.head? := by
  cases ls with
  | nil => rfl
  | cons m ms =>
    cases l with
    | nil => exact absurd rfl h
    | cons a t => rfl

/-- A newline join beginning with a non-empty line is non-empty. -/
theorem joinNl_cons_ne_nil (m : List Char) (ms : List (List Char)) (h : m ≠ []) :
    joinNl (m :: ms) ≠ [] := by
  cases ms with
  | nil => exact h
  | cons x xs => simp [joinNl]

/-- The last character of a newline join of non-empty lines is that of its
last line. -/
theorem joinNl_getLast? : ∀ (lines : List (List Char)) (lst : List Char),
    (∀ l ∈ lines, l ≠ []) →
    lines.getLast? = some lst → (joinNl lines).getLast? = lst.getLast? := by
  intro lines
  induction lines with
  | nil => intro lst _ h; exact Option.noConfusion h
  | cons l ls ih =>
    intro lst hne h
    cases ls with
    | nil =>
      simp at h
      subst h
      rfl
    | cons m ms =>
      have hm_ne : joinNl (m :: ms) ≠ [] := joinNl_cons_ne_nil m ms (hne m (by simp))
      have step : (joinNl (l :: m :: ms)).getLast? = (joinNl (m :: ms)).getLast? := by
        show ((l ++ '\n' :: joinNl (m :: ms))).getLast? = _
        rw [getLast?_append_right l ('\n' :: joinNl (m :: ms)) (by simp)]
        show ((['\n'] ++ joinNl (m :: ms))).getLast? = _
        exact getLast?_append_right ['\n'] _ hm_ne
      rw [step]
      exact ih lst (fun x hx => hne x (by simp [hx])) (by simpa using h)

/-- A formatted commit record is never the empty line. -/
theorem formatCommitLine_ne_nil (c : Commit) : formatCommitLine c ≠ [] := by
  unfold formatCommitLine
  simp

/-- A formatted record of a well-formed commit contains no newline. -/
theorem formatCommitLine_nl_free {c : Commit} (h : goodCommit c) :
    '\n' ∉ formatCommitLine c := by
  obtain ⟨h1, h2, h3, h4, _, _, _, _, _, _⟩ := h
  intro hmem
  simp only [formatCommitLine, List.mem_append, List.mem_cons] at hmem
  rcases hmem with h' | h' | h' | h' | h' | h' | h' <;>
    first
      | exact h1 h'
      | exact h2 h'
      | exact h3 h'
      | exact h4 h'
      | exact absurd h' (by decide)

/-- A formatted record of a well-formed commit starts with the first hash
character, which is not whitespace. -/
theorem formatCommitLine_head? {c : Commit} (h : goodCommit c) :
    ∀ ch, (formatCommitLine c).head? = some ch → isPyWS ch = false := by
  obtain ⟨_, _, _, _, _, _, _, hne, hhead, _⟩ := h
  intro ch hch
  unfold formatCommitLine at hch
  cases hh : c.hash with
  | nil => exact absurd hh hne
  | cons a t =>
    rw [hh] at hch
    simp at hch
    subst hch
    rw [hh] at hhead
    simpa using hhead

/-- A formatted record of a well-formed commit ends either in the final pipe
(empty message) or in the last message character; neither is whitespace. -/
theorem formatCommitLine_getLast? {c : Commit} (h : goodCommit c) :
    ∀ ch, (formatCommitLine c).getLast? = some ch → isPyWS ch = false := by
  obtain ⟨_, _, _, _, _, _, _, _, _, hlast⟩ := h
  intro ch hch
  have hshape : formatCommitLine c =
      (c.hash ++ '|' :: (c.author ++ '|' :: c.date)) ++ '|' :: c.message := by
    simp [formatCommitLine, List.append_assoc]
  rw [hshape, getLast?_append_right _ _ (by simp)] at hch
  cases hm : c.message with
  | nil =>
    rw [hm] at hch
    simp at hch
    subst hch
    rfl
  | cons m ms =>
    rw [hm] at hch
    rw [List.getLast?_cons_cons] at hch
    rw [hm] at hlast
    rw [hch] at hlast
    simpa using hlast

/-- Splitting off the first pipe of `x ++ '|' :: y` with pipe-free `x`. -/
theorem breakAtPipe_append {x : List Char} (y : List Char) (h : '|' ∉ x) :
    breakAtPipe (x ++ '|' :: y) = some (x, y) := by
  induction x with
  | nil => rfl
  | cons c t ih =>
    have hc : ¬(c = '|') := fun he => h (by simp [he])
    have ht : '|' ∉ t := fun hm => h (by simp [hm])
    simp [breakAtPipe, hc, ih ht]

/-- `split('|', 3)` on a formatted record with pipe-free hash, author, and
date recovers exactly the four fields. -/
theorem splitPipeMax_format (c : Commit) (h5 : '|' ∉ c.hash) (h6 : '|' ∉ c.author)
    (h7 : '|' ∉ c.date) :
    splitPipeMax 3 (formatCommitLine c) = [c.hash, c.author, c.date, c.message] := by
  unfold formatCommitLine
  simp [splitPipeMax, breakAtPipe_append _ h5, breakAtPipe_append _ h6,
    breakAtPipe_append _ h7]

/-- Parsing a formatted record of a well-formed commit recovers that commit. -/
theorem parseCommitLine_format {c : Commit} (h : goodCommit c) :
    parseCommitLine (formatCommitLine c) = some c := by
  obtain ⟨_, _, _, _, h5, h6, h7, _, _, _⟩ := h
  have hne := formatCommitLine_ne_nil c
  simp [parseCommitLine, List.isEmpty_iff, hne, splitPipeMax_format c h5 h6 h7]

/-- `filterMap` of a function behaving as `some` on every element is the
identity. -/
theorem filterMap_eq_self {α : Type} {f : α → Option α} :
    ∀ {l : List α}, (∀ x ∈ l, f x = some x) → l.filterMap f = l := by
  intro l
  induction l with
  | nil => intro _; rfl
  | cons a t ih =>
    intro h
    rw [List.filterMap_cons, h a (by simp)]
    rw [ih (fun x hx => h x (by simp [hx]))]

/-- A line not splitting into four pipe-delimited fields contributes
nothing. -/
theorem parseCommits_insert_bad (pre post : List (List Char)) (bad : List Char)
    (h : (splitPipeMax 3 bad).length ≠ 4) :
    parseCommits (pre ++ bad :: post) = parseCommits (pre ++ post) := by
  have hb : parseCommitLine bad = none := by
    unfold parseCommitLine
    cases he : bad.isEmpty with
    | true => simp
    | false =>
      simp only [Bool.false_eq_true, if_false]
      split
      · rename_i h1 a1 d1 m1 heq
        exact absurd (by simp [heq]) h
      · rfl
  simp [parseCommits, List.filterMap_append, List.filterMap_cons, hb]

/-- Parsing the pipeline output of `git log` on a well-formed repository
recovers the first `count` commits exactly. -/
theorem get_recent_commits_roundTrip :
    ∀ (cs : List Commit), (∀ c ∈ cs, goodCommit c) →
      parseCommits (splitNl (strip (joinNl (cs.map formatCommitLine)))) = cs := by
  intro cs hcs
  cases cs with
  | nil => rfl
  | cons c0 rest =>
    have hnl : ∀ l ∈ (c0 :: rest).map formatCommitLine, '\n' ∉ l := by
      intro l hl
      obtain ⟨c, hc, rfl⟩ := List.mem_map.mp hl
      exact formatCommitLine_nl_free (hcs c hc)
    have hstrip : strip (joinNl ((c0 :: rest).map formatCommitLine)) =
        joinNl ((c0 :: rest).map formatCommitLine) := by
      apply strip_eq_self
      · intro ch hch
        rw [List.map_cons, joinNl_head? _ _ (formatCommitLine_ne_nil c0)] at hch
        exact formatCommitLine_head? (hcs c0 (by simp)) ch hch
      · intro ch hch
        have hne_lines : ∀ l ∈ (c0 :: rest).map formatCommitLine, l ≠ [] := by
          intro l hl
          obtain ⟨c, _, rfl⟩ := List.mem_map.mp hl
          exact formatCommitLine_ne_nil c
        cases hline : ((c0 :: rest).map formatCommitLine).getLast? with
        | none => simp at hline
        | some lst =>
          have hmem : lst ∈ (c0 :: rest).map formatCommitLine := by
            obtain ⟨hne', heq⟩ :=
              List.mem_getLast?_eq_getLast (Option.mem_def.mpr hline)
            rw [heq]
            exact List.getLast_mem hne'
          obtain ⟨c, hc, rfl⟩ := List.mem_map.mp hmem
          rw [joinNl_getLast? _ _ hne_lines hline] at hch
          exact formatCommitLine_getLast? (hcs c hc) ch hch
    rw [hstrip]
    rw [splitNl_joinNl _ (by simp) hnl]
    unfold parseCommits
    rw [List.filterMap_map]
    exact filterMap_eq_self fun c hc => parseCommitLine_format (hcs c hc)

/-- Claim C6: commit-line failures degrade to the empty sequence, lines that
do not split into exactly four pipe-delimited fields are silently dropped,
and on a well-formed repository with any number of commits the listing
returns exactly `min count available` commits — in particular the available
count when the repository holds fewer commits than requested. -/
theorem c6_commit_listing :
    (∀ e : List Char, get_recent_commits (Except.error e) = []) ∧
    (∀ (pre post : List (List Char)) (bad : List Char),
        (splitPipeMax 3 bad).length ≠ 4 →
        parseCommits (pre ++ bad :: post) = parseCommits (pre ++ post)) ∧
    (∀ (repo : List Commit) (count : Nat), (∀ c ∈ repo, goodCommit c) →
        (get_recent_commits (runGitLog repo count)).length = min count repo.length) := by
  refine ⟨fun e => rfl, parseCommits_insert_bad, ?_⟩
  intro repo count h
  have hsub : ∀ c ∈ repo.take count, goodCommit c :=
    fun c hc => h c (List.take_subset count repo hc)
  show (parseCommits (splitNl (strip
      (joinNl ((repo.take count).map formatCommitLine))))).length = min count repo.length
  rw [get_recent_commits_roundTrip (repo.take count) hsub]
  exact List.length_take count repo

/-- Witness for `c6_commit_listing` at concrete inputs: a failing `git log`,
a malformed line between two well-formed ones, and a repository with one
commit asked for five. -/
theorem c6_witness :
    get_recent_commits (Except.error ("boom".toList)) = [] ∧
    parseCommits ([("a|b|c|d".toList)] ++ ("bad".toList) :: [("e|f|g|h".toList)]) =
      parseCommits ([("a|b|c|d".toList)] ++ [("e|f|g|h".toList)]) ∧
    (get_recent_commits
        (runGitLog [⟨"abc".toList, "me".toList, "d1".toList, "m1".toList⟩] 5)).length =
      min 5 1 :=
  ⟨c6_commit_listing.1 ("boom".toList),
   c6_commit_listing.2.1 [("a|b|c|d".toList)] [("e|f|g|h".toList)] ("bad".toList)
     (by decide),
   c6_commit_listing.2.2 [⟨"abc".toList, "me".toList, "d1".toList, "m1".toList⟩] 5
     (by decide)⟩

/-!
Claim C7 — sentinel scores are excluded from the average.
-/

/-- The three-review example of the claim: scores `"8"`, `"N/A"`, `"6"`. -/
def reviewsExample : List Review :=
  [⟨"r".toList, ⟨[], [], [], []⟩, ⟨"8".toList, [], []⟩⟩,
   ⟨"r".toList, ⟨[], [], [], []⟩, ⟨"N/A".toList, [], []⟩⟩,
   ⟨"r".toList, ⟨[], [], [], []⟩, ⟨"6".toList, [], []⟩⟩]

/-- Claim C7: the average quality score is computed over only the reviews
whose score is a plain digit string — inserting a review with a non-digit
(sentinel) score anywhere changes neither the sum nor the denominator — the
sentinels `"N/A"` and `"Error"` are not digit strings, and on scores
`["8", "N/A", "6"]` the average is exactly `(8+6)/2 = 7`. -/
theorem c7_average_excludes_sentinels :
    (∀ (pre post : List Review) (r : Review),
        isdigitStr r.analysis.score = false →
        reportAvgScore (pre ++ r :: post) = reportAvgScore (pre ++ post)) ∧
    isdigitStr ("N/A".toList) = false ∧
    isdigitStr ("Error".toList) = false ∧
    reportAvgScore reviewsExample = some 7 := by
  refine ⟨?_, by decide, by decide, ?_⟩
  · intro pre post r h
    have hds : digitScores (pre ++ r :: post) = digitScores (pre ++ post) := by
      simp [digitScores, List.filter_append, List.filter_cons, h]
    unfold reportAvgScore
    rw [hds]
  · have e1 : digitScores reviewsExample = ["8".toList, "6".toList] := by decide
    have e2 : digitsToNat ['8'] = 8 := by decide
    have e3 : digitsToNat ['6'] = 6 := by decide
    unfold reportAvgScore
    rw [e1]
    simp [e2, e3]
    norm_num

/-- Witness for `c7_average_excludes_sentinels` at a concrete input: dropping
an `"N/A"`-scored review does not change the average. -/
theorem c7_witness :
    reportAvgScore [(⟨"r".toList, ⟨[], [], [], []⟩, ⟨"N/A".toList, [], []⟩⟩ : Review)] =
      reportAvgScore [] :=
  c7_average_excludes_sentinels.1 [] [] _ (by decide)

/-!
Claim C8 — one detailed block per review, in order.
-/

/-- Helper: the `report += block` loop appends the rendered blocks, in order,
to whatever text was accumulated before the loop. -/
theorem foldl_renderBlock (reviews : List Review) :
    ∀ acc : List Char,
      reviews.foldl (fun acc r => acc ++ renderBlock r) acc =
        acc ++ (reviews.map renderBlock).flatten := by
  induction reviews with
  | nil => intro acc; simp
  | cons r rest ih => intro acc; simp [ih, List.append_assoc]

/-- Claim C8: the generated report is the header followed by the
concatenation, in input order, of exactly one rendered block per review. -/
theorem c8_report_blocks :
    ∀ (cfg : ReportConfig) (reviews : List Review),
      generate_report cfg reviews =
        reportHeader cfg reviews ++ (reviews.map renderBlock).flatten ∧
      (reviews.map renderBlock).length = reviews.length := by
  intro cfg reviews
  exact ⟨foldl_renderBlock reviews _, by simp⟩

/-!
Claim C9 — a clone failure skips only that repository.
-/

/-- Helper: the repository loop accumulates, in listing order, the reviews of
exactly the repositories whose clone succeeded. -/
theorem foldl_processRepos (cloneOk : List Char → Bool)
    (reviewsOf : List Char → List Review) :
    ∀ (repos : List (List Char)) (acc : List Review),
      repos.foldl (fun a url => if cloneOk url then a ++ reviewsOf url else a) acc =
        acc ++ ((repos.filter cloneOk).map reviewsOf).flatten := by
  intro repos
  induction repos with
  | nil => intro acc; simp
  | cons u rest ih =>
    intro acc
    cases h : cloneOk u with
    | true => simp [h, ih, List.filter_cons, List.append_assoc]
    | false => simp [h, ih, List.filter_cons]

/-- Claim C9: the accumulated review sequence is the in-order concatenation
of the reviews of the successfully cloned repositories, and a repository
whose clone fails is skipped without affecting the repositories after it. -/
theorem c9_clone_failure_skips :
    (∀ (repos : List (List Char)) (cloneOk : List Char → Bool)
        (reviewsOf : List Char → List Review),
        processRepos repos cloneOk reviewsOf =
          ((repos.filter cloneOk).map reviewsOf).flatten) ∧
    (∀ (pre post : List (List Char)) (bad : List Char) (cloneOk : List Char → Bool)
        (reviewsOf : List Char → List Review),
        cloneOk bad = false →
        processRepos (pre ++ bad :: post) cloneOk reviewsOf =
          processRepos (pre ++ post) cloneOk reviewsOf) := by
  constructor
  · intro repos cloneOk reviewsOf
    simpa using foldl_processRepos cloneOk reviewsOf repos []
  · intro pre post bad cloneOk reviewsOf h
    unfold processRepos
    rw [foldl_processRepos, foldl_processRepos]
    simp [List.filter_append, List.filter_cons, h]

/-- Witness for `c9_clone_failure_skips` at a concrete input: with repository
`b` failing to clone, processing `[a, b, c]` equals processing `[a, c]`. -/
theorem c9_witness :
    processRepos [("a".toList), ("b".toList), ("c".toList)]
        (fun u => u != "b".toList)
        (fun u => [⟨u, ⟨[], [], [], []⟩, ⟨[], [], []⟩⟩]) =
      processRepos [("a".toList), ("c".toList)]
        (fun u => u != "b".toList)
        (fun u => [⟨u, ⟨[], [], [], []⟩, ⟨[], [], []⟩⟩]) :=
  c9_clone_failure_skips.2 [("a".toList)] [("c".toList)] ("b".toList)
    (fun u => u != "b".toList)
    (fun u => [⟨u, ⟨[], [], [], []⟩, ⟨[], [], []⟩⟩]) (by decide)

/-!
Claim C10 — no division when there is no digit score.
-/

/-- Claim C10: when no review's score is a plain digit string (the empty list
included), the summary omits the average and distribution lines entirely and
the average is never computed (`none`, so no division is performed); whenever
an average is produced, the count of digit-scored reviews — the denominator
of the division — is positive. -/
theorem c10_no_division_when_no_digit_scores :
    (∀ reviews : List Review,
        (∀ r ∈ reviews, isdigitStr r.analysis.score = false) →
        scoreSummary reviews = [] ∧ reportAvgScore reviews = none) ∧
    (∀ (reviews : List Review) (q : ℚ),
        reportAvgScore reviews = some q → 0 < (digitScores reviews).length) := by
  constructor
  · intro reviews h
    have hds : digitScores reviews = [] := by
      unfold digitScores
      have : reviews.filter (fun r => isdigitStr r.analysis.score) = [] := by
        rw [List.filter_eq_nil_iff]
        intro r hr
        simp [h r hr]
      rw [this]
      rfl
    have havg : reportAvgScore reviews = none := by
      unfold reportAvgScore
      rw [hds]
      rfl
    refine ⟨?_, havg⟩
    unfold scoreSummary
    rw [havg]
    cases reviews.isEmpty <;> rfl
  · intro reviews q hq
    unfold reportAvgScore at hq
    cases hd : digitScores reviews with
    | nil => rw [hd] at hq; exact Option.noConfusion hq
    | cons a t => simp [hd]

/-- Witness for `c10_no_division_when_no_digit_scores` at concrete inputs: a
single `"N/A"`-scored review produces no summary lines and no average, and a
single `"8"`-scored review produces an average with a positive denominator. -/
theorem c10_witness :
    (scoreSummary [(⟨"r".toList, ⟨[], [], [], []⟩, ⟨"N/A".toList, [], []⟩⟩ : Review)] = [] ∧
      reportAvgScore [(⟨"r".toList, ⟨[], [], [], []⟩, ⟨"N/A".toList, [], []⟩⟩ : Review)] = none) ∧
    0 < (digitScores [(⟨"r".toList, ⟨[], [], [], []⟩, ⟨"8".toList, [], []⟩⟩ : Review)]).length :=
  ⟨c10_no_division_when_no_digit_scores.1 _ (by decide),
   c10_no_division_when_no_digit_scores.2
     [(⟨"r".toList, ⟨[], [], [], []⟩, ⟨"8".toList, [], []⟩⟩ : Review)] 8
     (by
       have e1 : digitScores [(⟨"r".toList, ⟨[], [], [], []⟩, ⟨"8".toList, [], []⟩⟩ : Review)] =
           ["8".toList] := by decide
       have e2 : digitsToNat ['8'] = 8 := by decide
       unfold reportAvgScore
       rw [e1]
       simp [e2])⟩

end GitReviewer
